import Mathlib

/-!
Verification of the calibration engine of the `puncc` library
(`deel/puncc/api/calibration2.py`).

The Python module is shallowly embedded: numeric ndarray entries are
rationals (`ℚ`), one-dimensional arrays are `List ℚ`, two-dimensional
arrays are lists of rows, and fallible operations return `Except`.
The uniform random draws that numpy generates inside `RAPS_SCORE` and
`RAPS_SET` are passed explicitly as an argument, one draw per example,
so that the embedded functions are deterministic in all of their inputs.

Functions from `deel.puncc.api.utils` (`EPSILON`, `check_alpha_calib`,
`quantile`) are not part of the provided sources; they are modelled from
the specification and marked as such in their doc comments.
-/

namespace Puncc

/-! ## Generic list helpers -/

/-- Cumulative sums starting from an accumulator: embedding of
`ndarray.cumsum` (specialised to one axis). -/
def cumsumFrom (acc : ℚ) : List ℚ → List ℚ
  | [] => []
  | x :: xs => (acc + x) :: cumsumFrom (acc + x) xs

/-- Embedding of `ndarray.cumsum(axis=1)` applied to one row. -/
def cumsum (xs : List ℚ) : List ℚ := cumsumFrom 0 xs

theorem cumsumFrom_length (acc : ℚ) (xs : List ℚ) :
    (cumsumFrom acc xs).length = xs.length := by
  induction xs generalizing acc with
  | nil => rfl
  | cons x xs ih => simp [cumsumFrom, ih]

theorem cumsum_length (xs : List ℚ) : (cumsum xs).length = xs.length :=
  cumsumFrom_length 0 xs

theorem cumsumFrom_getD (acc : ℚ) (xs : List ℚ) (j : ℕ) (hj : j < xs.length) :
    (cumsumFrom acc xs).getD j 0 = acc + (xs.take (j + 1)).sum := by
  induction xs generalizing acc j with
  | nil => simp at hj
  | cons x xs ih =>
    cases j with
    | zero => simp [cumsumFrom]
    | succ j =>
      simp only [List.length_cons, Nat.succ_lt_succ_iff] at hj
      rw [cumsumFrom, List.getD_cons_succ, ih (acc + x) j hj, List.take_succ_cons,
        List.sum_cons, add_assoc]

theorem cumsum_getD (xs : List ℚ) (j : ℕ) (hj : j < xs.length) :
    (cumsum xs).getD j 0 = (xs.take (j + 1)).sum := by
  simpa using cumsumFrom_getD 0 xs j hj

theorem getD_map_of_lt {α β : Type} (f : α → β) (l : List α) (i : ℕ)
    (h : i < l.length) (d : β) (d' : α) :
    (l.map f).getD i d = f (l.getD i d') := by
  induction l generalizing i with
  | nil => simp at h
  | cons x xs ih =>
    cases i with
    | zero => simp
    | succ i =>
      simp only [List.length_cons, Nat.succ_lt_succ_iff] at h
      rw [List.map_cons, List.getD_cons_succ, List.getD_cons_succ, ih i h]

theorem getD_zipWith_of_lt {α β γ : Type} (f : α → β → γ) (a : List α) (b : List β)
    (i : ℕ) (ha : i < a.length) (hb : i < b.length) (d : γ) (da : α) (db : β) :
    (List.zipWith f a b).getD i d = f (a.getD i da) (b.getD i db) := by
  induction a generalizing b i with
  | nil => simp at ha
  | cons x xs ih =>
    cases b with
    | nil => simp at hb
    | cons y ys =>
      cases i with
      | zero => simp
      | succ i =>
        simp only [List.length_cons, Nat.succ_lt_succ_iff] at ha hb
        rw [List.zipWith_cons_cons, List.getD_cons_succ, List.getD_cons_succ,
          List.getD_cons_succ, ih ys i ha hb]

theorem sum_map_div (l : List ℚ) (c : ℚ) :
    (l.map (fun x => x / c)).sum = l.sum / c := by
  induction l with
  | nil => simp
  | cons x xs ih => simp [ih, add_div]

/-! ## Constants and score functions

Embeddings of `NonConformityScores` from `calibration2.py`. -/

/-- Modelled from the spec: `EPSILON` is imported from
`deel.puncc.api.utils`, which is not part of the provided sources; the
spec describes it as "a small constant preventing division by zero". -/
def EPSILON : ℚ := 1 / 1000000000000

/-- A two-dimensional ndarray: a list of rows together with the length of
its second axis (`shape[1]`).  Well-formed values have every row of length
`ncols`. -/
structure Mat where
  rows : List (List ℚ)
  ncols : ℕ
deriving Repr, DecidableEq

/-- Well-formedness of a `Mat`: the ndarray is rectangular. -/
def Mat.WF (m : Mat) : Prop := ∀ r ∈ m.rows, r.length = m.ncols

/-- An ndarray argument that may be one- or two-dimensional, as `y_true`
in `SCALED_MAD` and `CQR_SCORE` may be. -/
inductive Arr where
  | d1 (xs : List ℚ)
  | d2 (m : Mat)
deriving Repr, DecidableEq

/-- Embedding of `NonConformityScores.Regression.MAD` on the ndarray
branch: elementwise absolute deviation `|y_pred - y_true|`. -/
def MAD (y_pred y_true : List ℚ) : List ℚ :=
  List.zipWith (fun p t => |p - t|) y_pred y_true

/-- Embedding of `NonConformityScores.Regression.SCALED_MAD`: validates
that `Y_pred` has exactly two columns and that `y_true` is
one-dimensional, then returns `MAD(point, truth) / (dispersion + EPSILON)`
elementwise. -/
def SCALED_MAD (Y_pred : Mat) (y_true : Arr) : Except String (List ℚ) :=
  if Y_pred.ncols ≠ 2 then
    Except.error "Each Y_pred must contain a point prediction and a dispersion estimation."
  else
    match y_true with
    | Arr.d2 _ => Except.error "Each y_pred must contain a point observation."
    | Arr.d1 xs =>
      Except.ok (List.zipWith (fun m v => m / (v + EPSILON))
        (MAD (Y_pred.rows.map (fun r => r.getD 0 0)) xs)
        (Y_pred.rows.map (fun r => r.getD 1 0)))

/-- Embedding of `NonConformityScores.Regression.CQR_SCORE`: validates
that `Y_pred` has exactly two columns and that `y_true` is
one-dimensional, then returns `max(q_lo - truth, truth - q_hi)`
elementwise. -/
def CQR_SCORE (Y_pred : Mat) (y_true : Arr) : Except String (List ℚ) :=
  if Y_pred.ncols ≠ 2 then
    Except.error "Each Y_pred must contain lower and higher quantiles estimations."
  else
    match y_true with
    | Arr.d2 _ => Except.error "Each y_pred must contain a point observation."
    | Arr.d1 xs =>
      Except.ok (List.zipWith (fun r t => max (r.getD 0 0 - t) (t - r.getD 1 0))
        Y_pred.rows xs)

/-! ## Prediction set constructors

Embeddings of `PredictionSets` from `calibration2.py`. -/

/-- Embedding of `PredictionSets.Regression.CONSTANT_INTERVAL` at the
shape used by split conformal regression: a vector of point predictions
and one scalar quantile, returning `(y_pred - tau, y_pred + tau)`. -/
def CONSTANT_INTERVAL (y_pred : List ℚ) (scores_quantiles : ℚ) :
    List ℚ × List ℚ :=
  (y_pred.map (fun p => p - scores_quantiles),
   y_pred.map (fun p => p + scores_quantiles))

/-- Embedding of `PredictionSets.Regression.CQR_INTERVAL`: validates the
two-column shape, then returns `(q_lo - tau, q_hi + tau)`. -/
def CQR_INTERVAL (Y_pred : Mat) (scores_quantiles : ℚ) :
    Except String (List ℚ × List ℚ) :=
  if Y_pred.ncols ≠ 2 then
    Except.error "Each Y_pred must contain lower and higher quantiles predictions, respectively."
  else
    Except.ok (Y_pred.rows.map (fun r => r.getD 0 0 - scores_quantiles),
               Y_pred.rows.map (fun r => r.getD 1 0 + scores_quantiles))

/-! ## Ranking by descending probability

`RAPS_SCORE` and `_RAPS_SET` rank classes with `np.argsort(-Y_pred)` and
sort probabilities with `-np.sort(-Y_pred)`.  The embedding fixes the tie
order of `argsort` to ascending index, which makes the ranking the unique
list sorted by the total order "larger probability first, smaller index
first on ties". -/

/-- The class-ranking order on indices of a probability row: `i` comes
before `j` when its probability is larger, or on equal probabilities when
`i ≤ j`. -/
def argsortRel (row : List ℚ) (i j : ℕ) : Prop :=
  row.getD j 0 < row.getD i 0 ∨ (row.getD i 0 = row.getD j 0 ∧ i ≤ j)

instance (row : List ℚ) : DecidableRel (argsortRel row) := fun i j => by
  unfold argsortRel
  infer_instance

instance (row : List ℚ) : IsTotal ℕ (argsortRel row) := by
  refine ⟨fun i j => ?_⟩
  rcases lt_trichotomy (row.getD i 0) (row.getD j 0) with h | h | h
  · exact Or.inr (Or.inl h)
  · rcases Nat.le_total i j with hij | hij
    · exact Or.inl (Or.inr ⟨h, hij⟩)
    · exact Or.inr (Or.inr ⟨h.symm, hij⟩)
  · exact Or.inl (Or.inl h)

instance (row : List ℚ) : IsTrans ℕ (argsortRel row) := by
  refine ⟨fun i j k hij hjk => ?_⟩
  rcases hij with h1 | ⟨e1, le1⟩
  · rcases hjk with h2 | ⟨e2, _⟩
    · exact Or.inl (h2.trans h1)
    · exact Or.inl (e2 ▸ h1)
  · rcases hjk with h2 | ⟨e2, le2⟩
    · exact Or.inl (e1 ▸ h2)
    · exact Or.inr ⟨e1.trans e2, le1.trans le2⟩

/-- Embedding of `np.argsort(-Y_pred, axis=1)` applied to one row. -/
def argsortDesc (row : List ℚ) : List ℕ :=
  List.insertionSort (argsortRel row) (List.range row.length)

/-- Embedding of `-np.sort(-Y_pred, axis=1)` applied to one row: the
probabilities read off along the ranking. -/
def sortedProba (row : List ℚ) : List ℚ :=
  (argsortDesc row).map (fun i => row.getD i 0)

/-- The descending order on rationals. -/
def descR (a b : ℚ) : Prop := b ≤ a

instance : DecidableRel descR := fun a b => inferInstanceAs (Decidable (b ≤ a))

instance : IsTotal ℚ descR := ⟨fun a b => le_total b a⟩

instance : IsTrans ℚ descR := ⟨fun _ _ _ h1 h2 => le_trans h2 h1⟩

instance : IsAntisymm ℚ descR := ⟨fun _ _ h1 h2 => le_antisymm h2 h1⟩

/-- The row sorted by descending value, independently of the ranking. -/
def sortDesc (row : List ℚ) : List ℚ := List.insertionSort descR row

theorem argsortDesc_perm (row : List ℚ) :
    (argsortDesc row).Perm (List.range row.length) :=
  List.perm_insertionSort _ _

theorem argsortDesc_length (row : List ℚ) :
    (argsortDesc row).length = row.length := by
  simpa using (argsortDesc_perm row).length_eq

theorem map_getD_range (row : List ℚ) :
    (List.range row.length).map (fun i => row.getD i 0) = row := by
  refine List.ext_getElem (by simp) (fun n h1 h2 => ?_)
  simp only [List.getElem_map, List.getElem_range]
  exact List.getD_eq_getElem row 0 h2

theorem sortedProba_perm (row : List ℚ) : (sortedProba row).Perm row := by
  have h := (argsortDesc_perm row).map (fun i => row.getD i 0)
  rwa [map_getD_range row] at h

theorem sortedProba_length (row : List ℚ) :
    (sortedProba row).length = row.length :=
  (sortedProba_perm row).length_eq

theorem sortedProba_sorted (row : List ℚ) :
    (sortedProba row).Sorted descR := by
  have hs : (argsortDesc row).Sorted (argsortRel row) :=
    List.sorted_insertionSort _ _
  refine List.Pairwise.map _ (fun i j hij => ?_) hs
  rcases hij with h | ⟨e, _⟩
  · exact le_of_lt h
  · exact le_of_eq e.symm

theorem sortedProba_eq_sortDesc (row : List ℚ) :
    sortedProba row = sortDesc row := by
  refine List.eq_of_perm_of_sorted ?_ (sortedProba_sorted row) ?_
  · exact (sortedProba_perm row).trans (List.perm_insertionSort descR row).symm
  · exact List.sorted_insertionSort _ _

theorem sortedProba_nonneg (row : List ℚ) (h : ∀ x ∈ row, 0 ≤ x) :
    ∀ x ∈ sortedProba row, 0 ≤ x := fun x hx =>
  h x ((sortedProba_perm row).mem_iff.mp hx)

/-! ## RAPS nonconformity score

Embedding of `NonConformityScores.Classification.RAPS_SCORE`.  The
uniform draws `np.random.uniform(size=len(y_true))` are supplied as the
argument `rand`, one entry per example. -/

/-- Embedding of `_RAPS_SCORE`: for each example, the cumulative sorted
probability mass up to and including the true class's rank, plus the
randomized correction `(rand - 1) * prob_at_rank`, plus the rank
penalty. -/
def RAPS_SCORE (lambd : ℚ) (k_reg : ℕ) (Y_pred : List (List ℚ))
    (y_true : List ℕ) (rand : List ℚ) : List ℚ :=
  (List.range y_true.length).map (fun i =>
    let row := Y_pred.getD i []
    let L := List.indexOf (y_true.getD i 0) (argsortDesc row)
    (cumsum (sortedProba row)).getD L 0
      + (rand.getD i 0 - 1) * (sortedProba row).getD L 0
      + lambd * max ((L : ℚ) - (k_reg : ℚ) + 1) 0)

/-! ## RAPS prediction sets

Embedding of `PredictionSets.Classification.RAPS_SET`.  The per-example
pieces of `_RAPS_SET` (`L`, `proba_excess`, `v`, the cut index and the
prediction set) are named so that the claims can speak about them.  The
uniform draws `u` are supplied explicitly. -/

/-- The per-rank penalty `lambd * max(arange(1, n+1) - k_reg, 0)`. -/
def penalTerm (lambd : ℚ) (k_reg : ℕ) (n : ℕ) : List ℚ :=
  (List.range n).map (fun j => lambd * max (((j : ℚ) + 1) - (k_reg : ℚ)) 0)

/-- The penalized cumulative sorted probability mass `penal_cum_proba`
of one example. -/
def penalCumProba (row : List ℚ) (lambd : ℚ) (k_reg : ℕ) : List ℚ :=
  List.zipWith (fun c p => c + p) (cumsum (sortedProba row))
    (penalTerm lambd k_reg row.length)

/-- The cut rank `L`: one plus the number of penalized cumulative masses
not exceeding `tau`. -/
def raps_L (row : List ℚ) (tau lambd : ℚ) (k_reg : ℕ) : ℕ :=
  (penalCumProba row lambd k_reg).countP (fun c => decide (c ≤ tau)) + 1

/-- The `proba_excess` term of `_RAPS_SET`. -/
def raps_proba_excess (row : List ℚ) (tau lambd : ℚ) (k_reg : ℕ) : ℚ :=
  -(cumsum (sortedProba row)).getD (raps_L row tau lambd k_reg - 1) 0
    - lambd * max ((raps_L row tau lambd k_reg : ℚ) - (k_reg : ℚ)) 0
    + (sortedProba row).getD (raps_L row tau lambd k_reg - 1) 0

/-- The randomized cutoff fraction `v` of `_RAPS_SET`; `none` embeds the
`np.inf` fallback taken when `L - 1 < 0`. -/
def raps_v (row : List ℚ) (tau lambd : ℚ) (k_reg : ℕ) : Option ℚ :=
  let L := raps_L row tau lambd k_reg
  if (0 : ℤ) ≤ (L : ℤ) - 1 then
    some ((tau - raps_proba_excess row tau lambd k_reg)
      / (sortedProba row).getD (L - 1) 0)
  else
    none

/-- The cut index of one example: `L - 1` when `v ≤ u`, else `L`.  The
`np.inf` fallback for `v` compares as `False` against any `u`, taking the
`else` branch. -/
def raps_cut (row : List ℚ) (tau lambd : ℚ) (k_reg : ℕ) (u : ℚ) : ℤ :=
  match raps_v row tau lambd k_reg with
  | some v => if v ≤ u then (raps_L row tau lambd k_reg : ℤ) - 1
              else (raps_L row tau lambd k_reg : ℤ)
  | none => (raps_L row tau lambd k_reg : ℤ)

/-- The prediction set of one example: the first `cut` classes of the
ranking, or the empty set on a negative cut index. -/
def raps_predSet (row : List ℚ) (tau lambd : ℚ) (k_reg : ℕ) (u : ℚ) :
    List ℕ :=
  if raps_cut row tau lambd k_reg u < 0 then []
  else (argsortDesc row).take (raps_cut row tau lambd k_reg u).toNat

/-- Embedding of `_RAPS_SET` over all examples. -/
def RAPS_SET (lambd : ℚ) (k_reg : ℕ) (Y_pred : List (List ℚ)) (tau : ℚ)
    (u : List ℚ) : List (List ℕ) :=
  (List.range Y_pred.length).map (fun i =>
    raps_predSet (Y_pred.getD i []) tau lambd k_reg (u.getD i 0))

/-! ## Barber weights -/

/-- Embedding of `BaseCalibrator.barber_weights`: one row per test
example, each row holding the calibration weights divided by
`sum(weights_calib) + 1` followed by the test-point mass
`1 / (sum(weights_calib) + 1)`. -/
def barber_weights (X : List ℚ) (weights_calib : List ℚ) : List (List ℚ) :=
  X.map (fun _ =>
    weights_calib.map (fun w => w / (weights_calib.sum + 1)) ++
      [1 / (weights_calib.sum + 1)])

/-! ## Quantiles

`np.quantile(a, q, method="inverted_cdf")` (used by `CvPlusCalibrator`)
selects, on the ascending sorted sample of size `n`, the order statistic
with one-based index `⌈q * n⌉`. -/

/-- The ascending order on rationals, as used to sort samples. -/
def ascR (a b : ℚ) : Prop := a ≤ b

instance : DecidableRel ascR := fun a b => inferInstanceAs (Decidable (a ≤ b))

instance : IsTotal ℚ ascR := ⟨fun a b => le_total a b⟩

instance : IsTrans ℚ ascR := ⟨fun _ _ _ h1 h2 => le_trans h1 h2⟩

/-- Integer ceiling of a rational, written with `Int.fdiv` so that it
evaluates by kernel reduction. -/
def ceilQ (q : ℚ) : ℤ := -(Int.fdiv (-(q.num)) (q.den))

/-- Embedding of `np.quantile(xs, p, method="inverted_cdf")` applied to
one row: the `⌈p * n⌉`-th smallest element (one-based). -/
def invertedCdfQuantile (xs : List ℚ) (p : ℚ) : ℚ :=
  (List.insertionSort ascR xs).getD ((ceilQ (p * xs.length)).toNat - 1) 0

/-! ## BaseCalibrator

Embedding of `BaseCalibrator` from `calibration2.py`.  The residual
sample lives in `WithTop ℚ` once augmented with the `np.inf` entry; `⊤`
embeds `np.inf`. -/

/-- Modelled from the spec: `check_alpha_calib` from
`deel.puncc.api.utils` is not part of the provided sources.  Per the
spec, `alpha` is infeasible when it is too small or too large relative
to the calibration-set size `n`. -/
def check_alpha_calib (alpha : ℚ) (n : ℕ) : Bool :=
  decide ((1 : ℚ) / ((n : ℚ) + 1) ≤ alpha) &&
    decide (alpha ≤ 1 - 1 / ((n : ℚ) + 1))

/-- Helper for the weighted quantile: walk the value/weight pairs in
ascending value order and return the first value whose accumulated
weight reaches `p * total`. -/
def weightedPick (target : ℚ) (acc : ℚ) :
    List (WithTop ℚ × ℚ) → WithTop ℚ
  | [] => ⊤
  | (x, wx) :: rest =>
      if target ≤ acc + wx then x else weightedPick target (acc + wx) rest

/-- The ascending order on pairs of an extended-rational value and a
weight, comparing values. -/
def ascPairR (a b : WithTop ℚ × ℚ) : Prop := a.1 ≤ b.1

instance : DecidableRel ascPairR := fun a b =>
  inferInstanceAs (Decidable (a.1 ≤ b.1))

/-- Modelled from the spec: `quantile` from `deel.puncc.api.utils` is
not part of the provided sources.  Per the spec, without weights it is
the standard empirical `p`-quantile of the augmented sample with the
lower ("inverted CDF") tie-break; with weights it is the quantile of the
weighted empirical CDF built from the augmented sample and the
weights. -/
def utilsQuantile (xs : List (WithTop ℚ)) (p : ℚ)
    (w : Option (List ℚ)) : WithTop ℚ :=
  match w with
  | none =>
      (List.insertionSort (fun a b : WithTop ℚ => a ≤ b) xs).getD
        ((ceilQ (p * xs.length)).toNat - 1) ⊤
  | some wts =>
      weightedPick (p * wts.sum) 0
        (List.insertionSort ascPairR (xs.zip wts))

/-- Errors raised by `BaseCalibrator.calibrate`: the sequencing error
("Run `fit` method before calling `calibrate`.") and the infeasibility
error raised by `check_alpha_calib`. -/
inductive CalibrateError where
  | notFitted
  | alphaInfeasible
deriving Repr, DecidableEq

/-- Embedding of `BaseCalibrator`: the configured score and
prediction-set functions together with the state written by `fit`.  The
prediction-set constructor may produce a value of any type `α`
(an interval pair for regression, a set collection for
classification). -/
structure BaseCalibrator (α : Type) where
  nonconf_score_func : List ℚ → List ℚ → List ℚ
  pred_set_func : List ℚ → List (WithTop ℚ) → α
  weight_func : Option (List ℚ → List ℚ) := none
  len_calib : ℕ := 0
  residuals : Option (List ℚ) := none

/-- Embedding of `BaseCalibrator.fit`: store the nonconformity scores
and their number. -/
def BaseCalibrator.fit {α : Type} (c : BaseCalibrator α)
    (y_true y_pred : List ℚ) : BaseCalibrator α :=
  let r := c.nonconf_score_func y_pred y_true
  { c with residuals := some r, len_calib := r.length }

/-- The weight vectors iterated over by `calibrate`: a single pass with
no weights when none are provided. -/
def itWeights (weights : Option (List (List ℚ))) : List (Option (List ℚ)) :=
  match weights with
  | none => [none]
  | some ws => ws.map some

/-- Embedding of `BaseCalibrator.calibrate`: fail when `fit` has not
run, then validate `alpha` against the stored calibration size, then
compute one augmented-sample quantile per weight vector and hand the
quantiles to the prediction-set constructor. -/
def BaseCalibrator.calibrate {α : Type} (c : BaseCalibrator α) (alpha : ℚ)
    (y_pred : List ℚ) (weights : Option (List (List ℚ))) :
    Except CalibrateError α :=
  match c.residuals with
  | none => Except.error CalibrateError.notFitted
  | some r =>
      if check_alpha_calib alpha c.len_calib then
        Except.ok (c.pred_set_func y_pred
          ((itWeights weights).map (fun w =>
            utilsQuantile (r.map (fun x => (x : WithTop ℚ)) ++ [⊤])
              (1 - alpha) w)))
      else Except.error CalibrateError.alphaInfeasible

/-- The quantiles computed during a `calibrate` call, in order: empty
when the call aborts on a precondition. -/
def BaseCalibrator.calibrateTrace {α : Type} (c : BaseCalibrator α)
    (alpha : ℚ) (weights : Option (List (List ℚ))) : List (WithTop ℚ) :=
  match c.residuals with
  | none => []
  | some r =>
      if check_alpha_calib alpha c.len_calib then
        (itWeights weights).map (fun w =>
          utilsQuantile (r.map (fun x => (x : WithTop ℚ)) ++ [⊤])
            (1 - alpha) w)
      else []

/-! ## CvPlusCalibrator

Embedding of `CvPlusCalibrator` from `calibration2.py`.  The fold
mapping is an association list from fold identifiers to optional
calibrators (`none` embeds a `None` entry); the whole mapping may itself
be absent. -/

/-- First fold identifier mapped to an absent calibrator, if any:
the fold on which the constructor's sanity-check loop raises. -/
def findUndefinedFold {α : Type} : List (ℕ × Option α) → Option ℕ
  | [] => none
  | (k, c) :: rest =>
      match c with
      | none => some k
      | some _ => findUndefinedFold rest

/-- Embedding of `CvPlusCalibrator.__init__`: fail when the mapping is
absent, or when some fold is mapped to an absent calibrator; otherwise
store the mapping. -/
def CvPlusCalibrator_init {α : Type} (kfold_calibrators : Option (List (ℕ × Option α))) :
    Except String (List (ℕ × Option α)) :=
  match kfold_calibrators with
  | none => Except.error "Calibrators not defined."
  | some m =>
      match findUndefinedFold m with
      | some k => Except.error ("Fold " ++ toString k ++ " calibrator is not defined.")
      | none => Except.ok m

/-- One fold's inputs to `CvPlusCalibrator.calibrate`: the fold
calibrator's residuals and the fold predictor's output on the test
features (`none` embeds a predictor returning `None`). -/
structure FoldIn where
  residuals : List ℚ
  preds : Option (List ℚ)
deriving Repr

/-- `CONSTANT_INTERVAL` at the broadcast shape used inside
`CvPlusCalibrator.calibrate`: a column of predictions (shape `(n, 1)`)
minus/plus a row of residuals (shape `(1, m)`) gives `(n, m)` matrices of
candidate lower and upper bounds. -/
def CONSTANT_INTERVAL_bcast (col row : List ℚ) :
    List (List ℚ) × List (List ℚ) :=
  (col.map (fun p => row.map (fun r => p - r)),
   col.map (fun p => row.map (fun r => p + r)))

/-- Embedding of `np.concatenate(..., axis=1)` on row-major matrices. -/
def hconcat (a b : List (List ℚ)) : List (List ℚ) :=
  List.zipWith (fun r s => r ++ s) a b

/-- The fold loop of `CvPlusCalibrator.calibrate`, including the final
sanity check: visit folds in order, fail on a fold whose predictor
returned no prediction, build the fold's candidate-bound matrices with
`CONSTANT_INTERVAL`, and concatenate them column-wise onto the
accumulators; with no fold visited the accumulators stay `none` and the
loop ends on the "This should never happen." error. -/
def cvplusLoop : List FoldIn → Option (List (List ℚ)) →
    Option (List (List ℚ)) → Except String (List (List ℚ) × List (List ℚ))
  | [], some lo, some hi => Except.ok (lo, hi)
  | [], _, _ => Except.error "This should never happen."
  | f :: rest, accLo, accHi =>
      match f.preds with
      | none => Except.error "No point predictor provided with cv+."
      | some y_pred =>
          match accLo, accHi with
          | some lo, some hi =>
              cvplusLoop rest
                (some (hconcat lo (CONSTANT_INTERVAL_bcast y_pred f.residuals).1))
                (some (hconcat hi (CONSTANT_INTERVAL_bcast y_pred f.residuals).2))
          | _, _ =>
              cvplusLoop rest
                (some (CONSTANT_INTERVAL_bcast y_pred f.residuals).1)
                (some (CONSTANT_INTERVAL_bcast y_pred f.residuals).2)

/-- Embedding of `CvPlusCalibrator.calibrate`: run the fold loop, then
take per test example the re-negated `1 - alpha` inverted-CDF quantile
of the negated concatenated lower bounds, and the plain `1 - alpha`
inverted-CDF quantile of the concatenated upper bounds. -/
def CvPlusCalibrator_calibrate (folds : List FoldIn) (alpha : ℚ) :
    Except String (List ℚ × List ℚ) :=
  match cvplusLoop folds none none with
  | Except.error e => Except.error e
  | Except.ok (lo, hi) =>
      Except.ok
        (lo.map (fun row =>
          -invertedCdfQuantile (row.map (fun x => -x)) (1 - alpha)),
         hi.map (fun row => invertedCdfQuantile row (1 - alpha)))

/-! ## Dimension count of an `Arr` argument -/

/-- Number of dimensions of an `Arr`, as `len(y_true.shape)` would
report it. -/
def Arr.ndim : Arr → ℕ
  | Arr.d1 _ => 1
  | Arr.d2 _ => 2

/-! ## Claim theorems -/

/-- C7: for every prediction vector and every `tau ≥ 0`,
`CONSTANT_INTERVAL` returns `(pred - tau, pred + tau)` elementwise, with
`y_lo ≤ pred ≤ y_hi` and `y_hi - y_lo = 2 * tau` exactly. -/
theorem constant_interval_spec (y_pred : List ℚ) (tau : ℚ) (i : ℕ)
    (htau : 0 ≤ tau) (hi : i < y_pred.length) :
    (CONSTANT_INTERVAL y_pred tau).1.getD i 0 = y_pred.getD i 0 - tau ∧
    (CONSTANT_INTERVAL y_pred tau).2.getD i 0 = y_pred.getD i 0 + tau ∧
    (CONSTANT_INTERVAL y_pred tau).1.getD i 0 ≤ y_pred.getD i 0 ∧
    y_pred.getD i 0 ≤ (CONSTANT_INTERVAL y_pred tau).2.getD i 0 ∧
    (CONSTANT_INTERVAL y_pred tau).2.getD i 0
      - (CONSTANT_INTERVAL y_pred tau).1.getD i 0 = 2 * tau := by
  have h1 : (CONSTANT_INTERVAL y_pred tau).1.getD i 0 = y_pred.getD i 0 - tau :=
    getD_map_of_lt _ y_pred i hi 0 0
  have h2 : (CONSTANT_INTERVAL y_pred tau).2.getD i 0 = y_pred.getD i 0 + tau :=
    getD_map_of_lt _ y_pred i hi 0 0
  refine ⟨h1, h2, ?_, ?_, ?_⟩ <;> simp only [h1, h2] <;> linarith

/-- C7 witness: `CONSTANT_INTERVAL` at `pred = [10]`, `tau = 5`. -/
theorem constant_interval_spec_witness :
    (CONSTANT_INTERVAL [10] 5).1.getD 0 0 = ([10] : List ℚ).getD 0 0 - 5 ∧
    (CONSTANT_INTERVAL [10] 5).2.getD 0 0 = ([10] : List ℚ).getD 0 0 + 5 ∧
    (CONSTANT_INTERVAL [10] 5).1.getD 0 0 ≤ ([10] : List ℚ).getD 0 0 ∧
    ([10] : List ℚ).getD 0 0 ≤ (CONSTANT_INTERVAL [10] 5).2.getD 0 0 ∧
    (CONSTANT_INTERVAL [10] 5).2.getD 0 0
      - (CONSTANT_INTERVAL [10] 5).1.getD 0 0 = 2 * 5 :=
  constant_interval_spec [10] 5 0 (by norm_num) (by decide)

/-- C6: `barber_weights` returns one row per test example, each row
being the calibration weights divided by `sum + 1` followed by the
test-point mass `1 / (sum + 1)`, of length `n + 1` and summing to `1`
exactly. -/
theorem barber_weights_spec (X w : List ℚ) (i : ℕ)
    (hw : ∀ x ∈ w, 0 ≤ x) (hi : i < X.length) :
    (barber_weights X w).length = X.length ∧
    (barber_weights X w).getD i [] =
      w.map (fun x => x / (w.sum + 1)) ++ [1 / (w.sum + 1)] ∧
    ((barber_weights X w).getD i []).length = w.length + 1 ∧
    ((barber_weights X w).getD i []).sum = 1 := by
  have hrow : (barber_weights X w).getD i [] =
      w.map (fun x => x / (w.sum + 1)) ++ [1 / (w.sum + 1)] :=
    getD_map_of_lt _ X i hi [] 0
  have hpos : (0 : ℚ) < w.sum + 1 := by
    have := List.sum_nonneg hw
    linarith
  refine ⟨by simp [barber_weights], hrow, ?_, ?_⟩
  · rw [hrow]; simp
  · rw [hrow, List.sum_append, sum_map_div]
    simp only [List.sum_cons, List.sum_nil, add_zero]
    rw [div_add_div_same, div_self (ne_of_gt hpos)]

/-- C6 witness: `barber_weights` on two test examples with calibration
weights `[1, 2]`. -/
theorem barber_weights_spec_witness :
    (barber_weights [0, 0] [1, 2]).length = ([0, 0] : List ℚ).length ∧
    (barber_weights [0, 0] [1, 2]).getD 1 [] =
      ([1, 2] : List ℚ).map (fun x => x / (([1, 2] : List ℚ).sum + 1)) ++
        [1 / (([1, 2] : List ℚ).sum + 1)] ∧
    ((barber_weights [0, 0] [1, 2]).getD 1 []).length = ([1, 2] : List ℚ).length + 1 ∧
    ((barber_weights [0, 0] [1, 2]).getD 1 []).sum = 1 :=
  barber_weights_spec [0, 0] [1, 2] 1 (by decide) (by decide)

/-- Auxiliary: the two nested elementwise passes of `SCALED_MAD` (the
`MAD` column against the truth, then the division by the dispersion
column) collapse to a single elementwise formula over the rows. -/
theorem scaled_mad_zip (f0 f1 : List ℚ → ℚ) (rows : List (List ℚ))
    (xs : List ℚ) :
    List.zipWith (fun m v => m / (v + EPSILON))
      (MAD (rows.map f0) xs) (rows.map f1) =
    List.zipWith (fun row t => |f0 row - t| / (f1 row + EPSILON)) rows xs := by
  induction rows generalizing xs with
  | nil => simp [MAD]
  | cons r rs ih =>
    cases xs with
    | nil => simp [MAD]
    | cons x xs => simp [MAD] at ih ⊢; exact ih xs

/-- C9: `SCALED_MAD` on a two-dimensional prediction and a truth of the
data model's matching leading dimension fails exactly when the
prediction's second dimension is not `2` or the truth has more than one
dimension; on a two-column prediction and a one-dimensional truth it
returns `|point - truth| / (dispersion + EPSILON)` elementwise, with
`EPSILON` a positive constant. -/
theorem scaled_mad_spec (m : Mat) (yt : Arr) (xs : List ℚ)
    (hdim : ∀ ys, yt = Arr.d1 ys → ys.length = m.rows.length) :
    ((SCALED_MAD m yt).isOk = false ↔ (m.ncols ≠ 2 ∨ 1 < yt.ndim)) ∧
    (0 : ℚ) < EPSILON ∧
    (yt = Arr.d1 xs → m.ncols = 2 →
      SCALED_MAD m yt = Except.ok (List.zipWith
        (fun row t => |row.getD 0 0 - t| / (row.getD 1 0 + EPSILON))
        m.rows xs)) := by
  refine ⟨?_, by norm_num [EPSILON], fun hyt hcols => ?_⟩
  · by_cases hc : m.ncols = 2
    · cases yt with
      | d1 ys => simp [SCALED_MAD, hc, Arr.ndim, Except.isOk, Except.toBool]
      | d2 mm => simp [SCALED_MAD, hc, Arr.ndim, Except.isOk, Except.toBool]
    · simp [SCALED_MAD, hc, Except.isOk, Except.toBool]
  · subst hyt
    simp only [SCALED_MAD, hcols]
    rw [scaled_mad_zip]
    simp

/-- C9 witness: `SCALED_MAD` on the two-column prediction
`[[3, 1], [7, 3]]` against the truth `[1, 2]`, and on a truth with two
dimensions. -/
theorem scaled_mad_spec_witness :
    ((SCALED_MAD ⟨[[3, 1], [7, 3]], 2⟩ (Arr.d1 [1, 2])).isOk = false ↔
      ((⟨[[3, 1], [7, 3]], 2⟩ : Mat).ncols ≠ 2 ∨ 1 < (Arr.d1 [1, 2]).ndim)) ∧
    (0 : ℚ) < EPSILON ∧
    (Arr.d1 [1, 2] = Arr.d1 [1, 2] → (⟨[[3, 1], [7, 3]], 2⟩ : Mat).ncols = 2 →
      SCALED_MAD ⟨[[3, 1], [7, 3]], 2⟩ (Arr.d1 [1, 2]) =
        Except.ok (List.zipWith
          (fun row t => |row.getD 0 0 - t| / (row.getD 1 0 + EPSILON))
          ([[3, 1], [7, 3]] : List (List ℚ)) [1, 2])) :=
  scaled_mad_spec ⟨[[3, 1], [7, 3]], 2⟩ (Arr.d1 [1, 2]) [1, 2]
    (by intro ys h; cases h; decide)

/-- C8: on a two-column prediction with `q_lo ≤ q_hi` and a
one-dimensional truth of matching length, `CQR_SCORE` returns
`max(q_lo - truth, truth - q_hi)` elementwise; the score is `0` when the
truth sits exactly at `q_lo` or `q_hi`, positive outside the band,
negative strictly inside, and `CQR_INTERVAL` at width equal to the score
recovers an interval containing the truth (inverse consistency). -/
theorem cqr_spec (rows : List (List ℚ)) (xs : List ℚ) (i : ℕ)
    (hlen : xs.length = rows.length) (hi : i < xs.length)
    (hq : (rows.getD i []).getD 0 0 ≤ (rows.getD i []).getD 1 0) :
    CQR_SCORE ⟨rows, 2⟩ (Arr.d1 xs) = Except.ok (List.zipWith
      (fun r t => max (r.getD 0 0 - t) (t - r.getD 1 0)) rows xs) ∧
    (List.zipWith (fun r t => max (r.getD 0 0 - t) (t - r.getD 1 0))
        rows xs).getD i 0 =
      max ((rows.getD i []).getD 0 0 - xs.getD i 0)
        (xs.getD i 0 - (rows.getD i []).getD 1 0) ∧
    (xs.getD i 0 = (rows.getD i []).getD 0 0 ∨
        xs.getD i 0 = (rows.getD i []).getD 1 0 →
      max ((rows.getD i []).getD 0 0 - xs.getD i 0)
        (xs.getD i 0 - (rows.getD i []).getD 1 0) = 0) ∧
    (xs.getD i 0 < (rows.getD i []).getD 0 0 ∨
        (rows.getD i []).getD 1 0 < xs.getD i 0 →
      0 < max ((rows.getD i []).getD 0 0 - xs.getD i 0)
        (xs.getD i 0 - (rows.getD i []).getD 1 0)) ∧
    ((rows.getD i []).getD 0 0 < xs.getD i 0 ∧
        xs.getD i 0 < (rows.getD i []).getD 1 0 →
      max ((rows.getD i []).getD 0 0 - xs.getD i 0)
        (xs.getD i 0 - (rows.getD i []).getD 1 0) < 0) ∧
    (CQR_INTERVAL ⟨rows, 2⟩
        (max ((rows.getD i []).getD 0 0 - xs.getD i 0)
          (xs.getD i 0 - (rows.getD i []).getD 1 0)) =
      Except.ok
        (rows.map (fun r => r.getD 0 0 -
          max ((rows.getD i []).getD 0 0 - xs.getD i 0)
            (xs.getD i 0 - (rows.getD i []).getD 1 0)),
         rows.map (fun r => r.getD 1 0 +
          max ((rows.getD i []).getD 0 0 - xs.getD i 0)
            (xs.getD i 0 - (rows.getD i []).getD 1 0)))) ∧
    (rows.map (fun r => r.getD 0 0 -
        max ((rows.getD i []).getD 0 0 - xs.getD i 0)
          (xs.getD i 0 - (rows.getD i []).getD 1 0))).getD i 0 ≤ xs.getD i 0 ∧
    xs.getD i 0 ≤ (rows.map (fun r => r.getD 1 0 +
        max ((rows.getD i []).getD 0 0 - xs.getD i 0)
          (xs.getD i 0 - (rows.getD i []).getD 1 0))).getD i 0 := by
  have hir : i < rows.length := hlen ▸ hi
  refine ⟨by simp [CQR_SCORE], getD_zipWith_of_lt _ rows xs i hir hi 0 [] 0,
    ?_, ?_, ?_, by simp [CQR_INTERVAL], ?_, ?_⟩
  · rintro (h | h)
    · rw [h, sub_self]
      exact max_eq_left (by linarith)
    · rw [h, sub_self]
      exact max_eq_right (by linarith)
  · rintro (h | h)
    · exact lt_max_iff.mpr (Or.inl (by linarith))
    · exact lt_max_iff.mpr (Or.inr (by linarith))
  · rintro ⟨h1, h2⟩
    exact max_lt (by linarith) (by linarith)
  · rw [getD_map_of_lt _ rows i hir 0 []]
    have := le_max_left ((rows.getD i []).getD 0 0 - xs.getD i 0)
      (xs.getD i 0 - (rows.getD i []).getD 1 0)
    linarith
  · rw [getD_map_of_lt _ rows i hir 0 []]
    have := le_max_right ((rows.getD i []).getD 0 0 - xs.getD i 0)
      (xs.getD i 0 - (rows.getD i []).getD 1 0)
    linarith

/-- C8 witness: the CQR statements at the quantile pair `(1, 3)` and
the truth `2` strictly inside the band. -/
theorem cqr_spec_witness :
    CQR_SCORE ⟨[[1, 3]], 2⟩ (Arr.d1 [2]) = Except.ok (List.zipWith
      (fun r t => max (r.getD 0 0 - t) (t - r.getD 1 0))
      ([[1, 3]] : List (List ℚ)) [2]) ∧
    (List.zipWith (fun r t => max (r.getD 0 0 - t) (t - r.getD 1 0))
        ([[1, 3]] : List (List ℚ)) [2]).getD 0 0 =
      max ((([[1, 3]] : List (List ℚ)).getD 0 []).getD 0 0 -
          ([2] : List ℚ).getD 0 0)
        (([2] : List ℚ).getD 0 0 -
          (([[1, 3]] : List (List ℚ)).getD 0 []).getD 1 0) ∧
    (([2] : List ℚ).getD 0 0 = (([[1, 3]] : List (List ℚ)).getD 0 []).getD 0 0 ∨
        ([2] : List ℚ).getD 0 0 = (([[1, 3]] : List (List ℚ)).getD 0 []).getD 1 0 →
      max ((([[1, 3]] : List (List ℚ)).getD 0 []).getD 0 0 -
          ([2] : List ℚ).getD 0 0)
        (([2] : List ℚ).getD 0 0 -
          (([[1, 3]] : List (List ℚ)).getD 0 []).getD 1 0) = 0) ∧
    (([2] : List ℚ).getD 0 0 < (([[1, 3]] : List (List ℚ)).getD 0 []).getD 0 0 ∨
        (([[1, 3]] : List (List ℚ)).getD 0 []).getD 1 0 < ([2] : List ℚ).getD 0 0 →
      0 < max ((([[1, 3]] : List (List ℚ)).getD 0 []).getD 0 0 -
          ([2] : List ℚ).getD 0 0)
        (([2] : List ℚ).getD 0 0 -
          (([[1, 3]] : List (List ℚ)).getD 0 []).getD 1 0)) ∧
    ((([[1, 3]] : List (List ℚ)).getD 0 []).getD 0 0 < ([2] : List ℚ).getD 0 0 ∧
        ([2] : List ℚ).getD 0 0 < (([[1, 3]] : List (List ℚ)).getD 0 []).getD 1 0 →
      max ((([[1, 3]] : List (List ℚ)).getD 0 []).getD 0 0 -
          ([2] : List ℚ).getD 0 0)
        (([2] : List ℚ).getD 0 0 -
          (([[1, 3]] : List (List ℚ)).getD 0 []).getD 1 0) < 0) ∧
    (CQR_INTERVAL ⟨[[1, 3]], 2⟩
        (max ((([[1, 3]] : List (List ℚ)).getD 0 []).getD 0 0 -
          ([2] : List ℚ).getD 0 0)
        (([2] : List ℚ).getD 0 0 -
          (([[1, 3]] : List (List ℚ)).getD 0 []).getD 1 0)) =
      Except.ok
        (([[1, 3]] : List (List ℚ)).map (fun r => r.getD 0 0 -
          max ((([[1, 3]] : List (List ℚ)).getD 0 []).getD 0 0 -
            ([2] : List ℚ).getD 0 0)
          (([2] : List ℚ).getD 0 0 -
            (([[1, 3]] : List (List ℚ)).getD 0 []).getD 1 0)),
         ([[1, 3]] : List (List ℚ)).map (fun r => r.getD 1 0 +
          max ((([[1, 3]] : List (List ℚ)).getD 0 []).getD 0 0 -
            ([2] : List ℚ).getD 0 0)
          (([2] : List ℚ).getD 0 0 -
            (([[1, 3]] : List (List ℚ)).getD 0 []).getD 1 0)))) ∧
    (([[1, 3]] : List (List ℚ)).map (fun r => r.getD 0 0 -
        max ((([[1, 3]] : List (List ℚ)).getD 0 []).getD 0 0 -
          ([2] : List ℚ).getD 0 0)
        (([2] : List ℚ).getD 0 0 -
          (([[1, 3]] : List (List ℚ)).getD 0 []).getD 1 0))).getD 0 0 ≤
      ([2] : List ℚ).getD 0 0 ∧
    ([2] : List ℚ).getD 0 0 ≤
      (([[1, 3]] : List (List ℚ)).map (fun r => r.getD 1 0 +
        max ((([[1, 3]] : List (List ℚ)).getD 0 []).getD 0 0 -
          ([2] : List ℚ).getD 0 0)
        (([2] : List ℚ).getD 0 0 -
          (([[1, 3]] : List (List ℚ)).getD 0 []).getD 1 0))).getD 0 0 :=
  cqr_spec [[1, 3]] [2] 0 (by decide) (by decide) (by decide)

theorem findUndefinedFold_eq_none {α : Type} (m : List (ℕ × Option α))
    (h : ∀ p ∈ m, p.2.isSome) : findUndefinedFold m = none := by
  induction m with
  | nil => rfl
  | cons p rest ih =>
    obtain ⟨k, c⟩ := p
    cases c with
    | none => exact absurd (h (k, none) (List.mem_cons_self _ _)) (by simp)
    | some cal =>
      exact ih (fun q hq => h q (List.mem_cons_of_mem _ hq))

theorem findUndefinedFold_isSome {α : Type} (m : List (ℕ × Option α)) (k : ℕ)
    (h : (k, (none : Option α)) ∈ m) : (findUndefinedFold m).isSome := by
  induction m with
  | nil => simp at h
  | cons p rest ih =>
    obtain ⟨k', c⟩ := p
    cases c with
    | none => simp [findUndefinedFold]
    | some cal =>
      rcases List.mem_cons.mp h with heq | hmem
      · exact absurd heq (by simp)
      · simpa [findUndefinedFold] using ih hmem

/-- C2 counterexample: `CvPlusCalibrator.__init__` succeeds on the
empty fold mapping — the claim that construction fails on an empty
mapping is false, as the constructor's sanity-check loop over an empty
mapping checks nothing. -/
theorem cvplus_init_empty_ok :
    CvPlusCalibrator_init (some ([] : List (ℕ × Option Unit))) =
      Except.ok [] ∧
    (CvPlusCalibrator_init (some ([] : List (ℕ × Option Unit)))).isOk = true :=
  ⟨rfl, rfl⟩

/-- C2 (amended): construction fails when the fold mapping is absent
and when some fold identifier is mapped to an absent calibrator, and
succeeds for every mapping whose entries are all present — including the
empty mapping, whose emptiness is not checked. -/
theorem cvplus_init_spec {α : Type} (m : List (ℕ × Option α)) (k : ℕ) :
    (CvPlusCalibrator_init (none : Option (List (ℕ × Option α))) =
      Except.error "Calibrators not defined.") ∧
    ((∀ p ∈ m, p.2.isSome) → CvPlusCalibrator_init (some m) = Except.ok m) ∧
    ((k, (none : Option α)) ∈ m →
      (CvPlusCalibrator_init (some m)).isOk = false) := by
  refine ⟨rfl, fun h => ?_, fun h => ?_⟩
  · simp [CvPlusCalibrator_init, findUndefinedFold_eq_none m h]
  · have hs := findUndefinedFold_isSome m k h
    rcases Option.isSome_iff_exists.mp hs with ⟨k', hk'⟩
    simp [CvPlusCalibrator_init, hk', Except.isOk, Except.toBool]

/-- C2 witness: a mapping with an absent fold calibrator fails, a
mapping with all entries present succeeds. -/
theorem cvplus_init_spec_witness :
    ((1, (none : Option Unit)) ∈ [(0, some ()), (1, (none : Option Unit))] ∧
      (CvPlusCalibrator_init
        (some [(0, some ()), (1, (none : Option Unit))])).isOk = false) ∧
    ((∀ p ∈ [(2, some ())], (Prod.snd p).isSome) ∧
      CvPlusCalibrator_init (some [(2, (some () : Option Unit))]) =
        Except.ok [(2, some ())]) :=
  ⟨⟨by decide,
    (cvplus_init_spec [(0, some ()), (1, (none : Option Unit))] 1).2.2 (by decide)⟩,
   ⟨by decide, (cvplus_init_spec [(2, (some () : Option Unit))] 0).2.1 (by decide)⟩⟩

/-- C5: `BaseCalibrator.calibrate` aborts with the sequencing error on a
never-fitted calibrator and with the infeasibility error when `alpha`
fails the check against the stored calibration size, in both cases
before computing any quantile (the quantile trace of the call is
empty). -/
theorem calibrate_precondition {α : Type} (c : BaseCalibrator α)
    (alpha : ℚ) (y_pred : List ℚ) (weights : Option (List (List ℚ)))
    (r : List ℚ) :
    (c.residuals = none →
      c.calibrate alpha y_pred weights =
        Except.error CalibrateError.notFitted ∧
      c.calibrateTrace alpha weights = []) ∧
    (c.residuals = some r → check_alpha_calib alpha c.len_calib = false →
      c.calibrate alpha y_pred weights =
        Except.error CalibrateError.alphaInfeasible ∧
      c.calibrateTrace alpha weights = []) := by
  constructor
  · intro h
    constructor <;> simp [BaseCalibrator.calibrate, BaseCalibrator.calibrateTrace, h]
  · intro h hFalse
    constructor <;>
      simp [BaseCalibrator.calibrate, BaseCalibrator.calibrateTrace, h, hFalse]

/-- A never-fitted calibrator used by the C5 witness. -/
def unfitCalib : BaseCalibrator ℕ where
  nonconf_score_func := fun _ _ => []
  pred_set_func := fun _ _ => 0

/-- A fitted calibrator with five residuals used by the C5 witness. -/
def fittedCalib : BaseCalibrator ℕ where
  nonconf_score_func := fun _ _ => []
  pred_set_func := fun _ _ => 0
  len_calib := 5
  residuals := some [1, 2, 3, 4, 5]

/-- C5 witness: the never-fitted calibrator aborts with the sequencing
error, the fitted calibrator aborts on the infeasible `alpha = 2`; both
abort with an empty quantile trace. -/
theorem calibrate_precondition_witness :
    (unfitCalib.calibrate 1 [] none = Except.error CalibrateError.notFitted ∧
      unfitCalib.calibrateTrace 1 none = []) ∧
    (check_alpha_calib 2 fittedCalib.len_calib = false ∧
      (fittedCalib.calibrate 2 [] none =
        Except.error CalibrateError.alphaInfeasible ∧
      fittedCalib.calibrateTrace 2 none = [])) := by
  have hcheck : check_alpha_calib 2 fittedCalib.len_calib = false := by
    norm_num [check_alpha_calib, fittedCalib]
  exact ⟨(calibrate_precondition unfitCalib 1 [] none []).1 rfl,
    ⟨hcheck,
      (calibrate_precondition fittedCalib 2 [] none [1, 2, 3, 4, 5]).2 rfl hcheck⟩⟩

theorem getD_range (n i : ℕ) (h : i < n) : (List.range n).getD i 0 = i := by
  rw [List.getD_eq_getElem _ _ (by simpa using h), List.getElem_range]

theorem take_sum_succ (xs : List ℚ) (j : ℕ) (hj : j < xs.length) :
    (xs.take (j + 1)).sum = (xs.take j).sum + xs.getD j 0 := by
  induction xs generalizing j with
  | nil => simp at hj
  | cons x l ih =>
    cases j with
    | zero => simp
    | succ j =>
      simp only [List.length_cons, Nat.succ_lt_succ_iff] at hj
      rw [List.take_succ_cons, List.take_succ_cons, List.sum_cons, List.sum_cons,
        List.getD_cons_succ, ih j hj, add_assoc]

theorem raps_L_pos (row : List ℚ) (tau lambd : ℚ) (k_reg : ℕ) :
    1 ≤ raps_L row tau lambd k_reg :=
  Nat.succ_le_succ (Nat.zero_le _)

theorem raps_v_eq (row : List ℚ) (tau lambd : ℚ) (k_reg : ℕ) :
    raps_v row tau lambd k_reg =
      some ((tau - raps_proba_excess row tau lambd k_reg) /
        (sortedProba row).getD (raps_L row tau lambd k_reg - 1) 0) := by
  have h : (0 : ℤ) ≤ (raps_L row tau lambd k_reg : ℤ) - 1 := by
    have := raps_L_pos row tau lambd k_reg
    omega
  simp only [raps_v, if_pos h]

theorem raps_cut_eq (row : List ℚ) (tau lambd : ℚ) (k_reg : ℕ) (u : ℚ) :
    raps_cut row tau lambd k_reg u =
      if (tau - raps_proba_excess row tau lambd k_reg) /
          (sortedProba row).getD (raps_L row tau lambd k_reg - 1) 0 ≤ u
      then (raps_L row tau lambd k_reg : ℤ) - 1
      else (raps_L row tau lambd k_reg : ℤ) := by
  rw [raps_cut, raps_v_eq]

/-- C4: each RAPS nonconformity score equals
`cum_mass_up_to_L + (u - 1) * prob_at_L + lambd * max(L - k_reg + 1, 0)`
where `L` is the 0-based rank of the true class in the descending
probability ranking, `cum_mass_up_to_L` the sum of the `L + 1` largest
sorted probabilities and `prob_at_L` the sorted probability at rank `L`;
with the uniform draws passed explicitly the score is a deterministic
function of its inputs. -/
theorem raps_score_spec (lambd : ℚ) (k_reg : ℕ) (Y_pred : List (List ℚ))
    (y_true : List ℕ) (rand : List ℚ) (i : ℕ) (hi : i < y_true.length)
    (hy : y_true.getD i 0 < (Y_pred.getD i []).length) :
    (RAPS_SCORE lambd k_reg Y_pred y_true rand).getD i 0 =
      ((sortDesc (Y_pred.getD i [])).take
          (List.indexOf (y_true.getD i 0) (argsortDesc (Y_pred.getD i [])) + 1)).sum
        + (rand.getD i 0 - 1) * (sortDesc (Y_pred.getD i [])).getD
            (List.indexOf (y_true.getD i 0) (argsortDesc (Y_pred.getD i []))) 0
        + lambd * max
            ((List.indexOf (y_true.getD i 0) (argsortDesc (Y_pred.getD i [])) : ℚ)
              - (k_reg : ℚ) + 1) 0 := by
  have hmem : y_true.getD i 0 ∈ argsortDesc (Y_pred.getD i []) :=
    (argsortDesc_perm _).mem_iff.mpr (List.mem_range.mpr hy)
  have hL : List.indexOf (y_true.getD i 0) (argsortDesc (Y_pred.getD i [])) <
      (Y_pred.getD i []).length := by
    have := List.indexOf_lt_length.mpr hmem
    rwa [argsortDesc_length] at this
  have h1 : (RAPS_SCORE lambd k_reg Y_pred y_true rand).getD i 0 =
      (cumsum (sortedProba (Y_pred.getD i []))).getD
          (List.indexOf (y_true.getD i 0) (argsortDesc (Y_pred.getD i []))) 0
        + (rand.getD i 0 - 1) * (sortedProba (Y_pred.getD i [])).getD
            (List.indexOf (y_true.getD i 0) (argsortDesc (Y_pred.getD i []))) 0
        + lambd * max
            ((List.indexOf (y_true.getD i 0) (argsortDesc (Y_pred.getD i [])) : ℚ)
              - (k_reg : ℚ) + 1) 0 := by
    rw [RAPS_SCORE, getD_map_of_lt _ (List.range y_true.length) i
      (by simpa using hi) 0 0, getD_range _ _ hi]
  rw [h1, cumsum_getD _ _ (by rwa [sortedProba_length]), sortedProba_eq_sortDesc]

/-- C4 witness: the RAPS score of a single example with probability row
`[1/10, 7/10, 1/5]`, true class `2`, uniform draw `1/2`, `lambd = 1` and
`k_reg = 1`. -/
theorem raps_score_spec_witness :
    (RAPS_SCORE 1 1 [[1/10, 7/10, 1/5]] [2] [1/2]).getD 0 0 =
      ((sortDesc (([[1/10, 7/10, 1/5]] : List (List ℚ)).getD 0 [])).take
          (List.indexOf (([2] : List ℕ).getD 0 0)
            (argsortDesc (([[1/10, 7/10, 1/5]] : List (List ℚ)).getD 0 [])) + 1)).sum
        + (([1/2] : List ℚ).getD 0 0 - 1) *
            (sortDesc (([[1/10, 7/10, 1/5]] : List (List ℚ)).getD 0 [])).getD
              (List.indexOf (([2] : List ℕ).getD 0 0)
                (argsortDesc (([[1/10, 7/10, 1/5]] : List (List ℚ)).getD 0 []))) 0
        + 1 * max
            ((List.indexOf (([2] : List ℕ).getD 0 0)
              (argsortDesc (([[1/10, 7/10, 1/5]] : List (List ℚ)).getD 0 [])) : ℚ)
              - ((1 : ℕ) : ℚ) + 1) 0 :=
  raps_score_spec 1 1 [[1/10, 7/10, 1/5]] [2] [1/2] 0 (by decide) (by decide)

/-- C10: in `RAPS_SET` the cut rank `L` is always at least `1`, hence
the guard `L - 1 ≥ 0` always holds and the `np.inf` fallback for `v` is
unreachable (`v` is always the explicit quotient), the cut index is
never negative so the negative-cut branch returning an empty set is
unreachable, and an empty prediction set arises only with cut index `0`,
that is when `v ≤ u` and `L = 1`. -/
theorem raps_set_reachability (row : List ℚ) (tau lambd : ℚ) (k_reg : ℕ)
    (u : ℚ) (hrow : row ≠ []) :
    1 ≤ raps_L row tau lambd k_reg ∧
    raps_v row tau lambd k_reg =
      some ((tau - raps_proba_excess row tau lambd k_reg) /
        (sortedProba row).getD (raps_L row tau lambd k_reg - 1) 0) ∧
    0 ≤ raps_cut row tau lambd k_reg u ∧
    (raps_predSet row tau lambd k_reg u = [] →
      raps_cut row tau lambd k_reg u = 0 ∧
      raps_L row tau lambd k_reg = 1 ∧
      (tau - raps_proba_excess row tau lambd k_reg) /
        (sortedProba row).getD (raps_L row tau lambd k_reg - 1) 0 ≤ u) := by
  have hL := raps_L_pos row tau lambd k_reg
  have hv := raps_v_eq row tau lambd k_reg
  have hcut : 0 ≤ raps_cut row tau lambd k_reg u := by
    rw [raps_cut_eq]
    split <;> omega
  refine ⟨hL, hv, hcut, fun hempty => ?_⟩
  have hlen : (argsortDesc row).length = row.length := argsortDesc_length row
  have hne : argsortDesc row ≠ [] := by
    intro h
    apply hrow
    rw [h] at hlen
    exact List.length_eq_zero.mp hlen.symm
  rw [raps_predSet, if_neg (by omega)] at hempty
  have hzero : (raps_cut row tau lambd k_reg u).toNat = 0 := by
    rcases List.take_eq_nil_iff.mp hempty with h | h
    · exact h
    · exact absurd h hne
  have hc0 : raps_cut row tau lambd k_reg u = 0 := by omega
  rw [raps_cut_eq] at hc0
  by_cases hvu : (tau - raps_proba_excess row tau lambd k_reg) /
      (sortedProba row).getD (raps_L row tau lambd k_reg - 1) 0 ≤ u
  · rw [if_pos hvu] at hc0
    refine ⟨by omega, by omega, hvu⟩
  · rw [if_neg hvu] at hc0
    omega

/-- C10 witness: with the single-class row `[1]`, `tau = 1/2`,
`lambd = 0`, `k_reg = 1` and draw `u = 1` the prediction set is empty,
and the theorem yields `cut = 0`, `L = 1` and `v ≤ u`. -/
theorem raps_set_reachability_witness :
    raps_predSet [1] (1/2) 0 1 1 = [] ∧
    (raps_cut [1] (1/2) 0 1 1 = 0 ∧
      raps_L [1] (1/2) 0 1 = 1 ∧
      ((1:ℚ)/2 - raps_proba_excess [1] (1/2) 0 1) /
        (sortedProba [1]).getD (raps_L [1] (1/2) 0 1 - 1) 0 ≤ 1) := by
  have hempty : raps_predSet [1] (1/2) 0 1 1 = [] := by
    have hsp : sortedProba [1] = [1] := by
      norm_num [sortedProba, argsortDesc, List.insertionSort, List.orderedInsert]
    have hL : raps_L [1] (1/2) 0 1 = 1 := by
      norm_num [raps_L, penalCumProba, penalTerm, hsp, cumsum, cumsumFrom,
        List.countP, List.countP.go]
    have hex : raps_proba_excess [1] (1/2) 0 1 = 0 := by
      norm_num [raps_proba_excess, hL, hsp, cumsum, cumsumFrom]
    have hcut : raps_cut [1] (1/2) 0 1 1 = 0 := by
      rw [raps_cut_eq, hex, hL, hsp]
      norm_num
    rw [raps_predSet, hcut]
    norm_num
  exact ⟨hempty,
    (raps_set_reachability [1] (1/2) 0 1 1 (by decide)).2.2.2 hempty⟩

/-- C3 counterexample: with the probability row `[1/2, 1/2]` (nonneg
entries summing to `1`), threshold `tau = 9/10`, `lambd = 0` and
`k_reg = 1`, the rank guard holds (`L = 2`, so `L - 1 = 1 ≥ 0`) yet the
randomized cutoff fraction computed by `_RAPS_SET` is `14/5`, which is
not in `[0, 1]`. -/
theorem raps_v_not_in_unit_interval :
    ((1:ℚ)/2 + 1/2 = 1) ∧ (0 ≤ (1:ℚ)/2) ∧
    raps_L [1/2, 1/2] (9/10) 0 1 = 2 ∧
    raps_v [1/2, 1/2] (9/10) 0 1 = some (14/5) ∧
    ¬ ((14:ℚ)/5 ≤ 1) := by
  have hsp : sortedProba [1/2, 1/2] = [1/2, 1/2] := by
    norm_num [sortedProba, argsortDesc, argsortRel, List.insertionSort,
      List.orderedInsert]
  have hL : raps_L [1/2, 1/2] (9/10) 0 1 = 2 := by
    norm_num [raps_L, penalCumProba, penalTerm, hsp, cumsum, cumsumFrom,
      List.countP, List.countP.go]
  have hex : raps_proba_excess [1/2, 1/2] (9/10) 0 1 = -(1/2) := by
    norm_num [raps_proba_excess, hL, hsp, cumsum, cumsumFrom]
  have hv : raps_v [1/2, 1/2] (9/10) 0 1 = some (14/5) := by
    rw [raps_v_eq, hex, hL, hsp]
    norm_num
  exact ⟨by norm_num, by norm_num, hL, hv, by norm_num⟩

/-- C3 (amended): on a probability row with nonnegative entries summing
to `1`, a nonnegative threshold, nonnegative regularization and a
positive boundary probability, the randomized cutoff fraction `v`
computed by `_RAPS_SET` is defined (the rank guard always holds) and is
nonnegative; the upper bound `v ≤ 1` of the original claim does not hold
in general. -/
theorem raps_v_nonneg (row : List ℚ) (tau lambd : ℚ) (k_reg : ℕ)
    (hnn : ∀ x ∈ row, 0 ≤ x) (_hsum : row.sum = 1) (htau : 0 ≤ tau)
    (hlam : 0 ≤ lambd)
    (hp : 0 < (sortedProba row).getD (raps_L row tau lambd k_reg - 1) 0) :
    raps_v row tau lambd k_reg =
      some ((tau - raps_proba_excess row tau lambd k_reg) /
        (sortedProba row).getD (raps_L row tau lambd k_reg - 1) 0) ∧
    0 ≤ (tau - raps_proba_excess row tau lambd k_reg) /
        (sortedProba row).getD (raps_L row tau lambd k_reg - 1) 0 := by
  have hnn' : ∀ x ∈ sortedProba row, 0 ≤ x := sortedProba_nonneg row hnn
  have hidx : raps_L row tau lambd k_reg - 1 < (sortedProba row).length := by
    by_contra hge
    rw [List.getD_eq_default _ _ (le_of_not_lt hge)] at hp
    exact lt_irrefl 0 hp
  have hcum : (sortedProba row).getD (raps_L row tau lambd k_reg - 1) 0 ≤
      (cumsum (sortedProba row)).getD (raps_L row tau lambd k_reg - 1) 0 := by
    rw [cumsum_getD _ _ hidx, take_sum_succ _ _ hidx]
    have : 0 ≤ ((sortedProba row).take (raps_L row tau lambd k_reg - 1)).sum :=
      List.sum_nonneg (fun x hx => hnn' x (List.mem_of_mem_take hx))
    linarith
  have hpen : 0 ≤ lambd * max ((raps_L row tau lambd k_reg : ℚ) - (k_reg : ℚ)) 0 :=
    mul_nonneg hlam (le_max_right _ 0)
  have hnum : 0 ≤ tau - raps_proba_excess row tau lambd k_reg := by
    rw [raps_proba_excess]
    linarith
  exact ⟨raps_v_eq row tau lambd k_reg, div_nonneg hnum (le_of_lt hp)⟩

/-- C3 witness: the amended statement at the probability row
`[2/3, 1/3]` with `tau = 1/2`, `lambd = 0`, `k_reg = 1`, where the
boundary probability is `2/3 > 0`. -/
theorem raps_v_nonneg_witness :
    raps_v [2/3, 1/3] (1/2) 0 1 =
      some (((1:ℚ)/2 - raps_proba_excess [2/3, 1/3] (1/2) 0 1) /
        (sortedProba [2/3, 1/3]).getD (raps_L [2/3, 1/3] (1/2) 0 1 - 1) 0) ∧
    0 ≤ ((1:ℚ)/2 - raps_proba_excess [2/3, 1/3] (1/2) 0 1) /
        (sortedProba [2/3, 1/3]).getD (raps_L [2/3, 1/3] (1/2) 0 1 - 1) 0 := by
  have hsp : sortedProba [2/3, 1/3] = [2/3, 1/3] := by
    norm_num [sortedProba, argsortDesc, argsortRel, List.insertionSort,
      List.orderedInsert]
  have hp : 0 < (sortedProba [2/3, 1/3]).getD
      (raps_L [2/3, 1/3] (1/2) 0 1 - 1) 0 := by
    have hL : raps_L [2/3, 1/3] (1/2) 0 1 = 1 := by
      norm_num [raps_L, penalCumProba, penalTerm, hsp, cumsum, cumsumFrom,
        List.countP, List.countP.go]
    rw [hL, hsp]
    norm_num
  exact raps_v_nonneg [2/3, 1/3] (1/2) 0 1 (by norm_num) (by norm_num)
    (by norm_num) le_rfl hp

/-! ## CV+ aggregation: spec-side description and refinement -/

/-- Fold inputs with every fold predictor returning a prediction. -/
def toFoldIn (folds : List (List ℚ × List ℚ)) : List FoldIn :=
  folds.map (fun f => ⟨f.1, some f.2⟩)

/-- Spec-side description of the pooled lower-bound candidates of test
example `i`: the concatenation across folds of `pred_i - r` over the
fold's residuals `r`. -/
def cvplusCandLo : List (List ℚ × List ℚ) → ℕ → List ℚ
  | [], _ => []
  | f :: rest, i =>
      f.1.map (fun r => f.2.getD i 0 - r) ++ cvplusCandLo rest i

/-- Spec-side description of the pooled upper-bound candidates of test
example `i`. -/
def cvplusCandHi : List (List ℚ × List ℚ) → ℕ → List ℚ
  | [], _ => []
  | f :: rest, i =>
      f.1.map (fun r => f.2.getD i 0 + r) ++ cvplusCandHi rest i

/-- The lower-bound accumulator built by the fold loop from a starting
matrix. -/
def foldConcatLo : List (List ℚ × List ℚ) → List (List ℚ) → List (List ℚ)
  | [], A => A
  | f :: rest, A =>
      foldConcatLo rest (hconcat A (CONSTANT_INTERVAL_bcast f.2 f.1).1)

/-- The upper-bound accumulator built by the fold loop from a starting
matrix. -/
def foldConcatHi : List (List ℚ × List ℚ) → List (List ℚ) → List (List ℚ)
  | [], A => A
  | f :: rest, A =>
      foldConcatHi rest (hconcat A (CONSTANT_INTERVAL_bcast f.2 f.1).2)

theorem cvplusLoop_toFoldIn (rest : List (List ℚ × List ℚ))
    (A B : List (List ℚ)) :
    cvplusLoop (toFoldIn rest) (some A) (some B) =
      Except.ok (foldConcatLo rest A, foldConcatHi rest B) := by
  induction rest generalizing A B with
  | nil => rfl
  | cons f r ih =>
    rw [show cvplusLoop (toFoldIn (f :: r)) (some A) (some B) =
        cvplusLoop (toFoldIn r)
          (some (hconcat A (CONSTANT_INTERVAL_bcast f.2 f.1).1))
          (some (hconcat B (CONSTANT_INTERVAL_bcast f.2 f.1).2)) from rfl,
      ih]
    rfl

theorem hconcat_length (A B : List (List ℚ)) :
    (hconcat A B).length = min A.length B.length := by
  simp [hconcat]

theorem bcast_fst_length (col row : List ℚ) :
    (CONSTANT_INTERVAL_bcast col row).1.length = col.length := by
  simp [CONSTANT_INTERVAL_bcast]

theorem bcast_snd_length (col row : List ℚ) :
    (CONSTANT_INTERVAL_bcast col row).2.length = col.length := by
  simp [CONSTANT_INTERVAL_bcast]

theorem foldConcatLo_length (rest : List (List ℚ × List ℚ))
    (A : List (List ℚ)) (m : ℕ) (hA : A.length = m)
    (hrest : ∀ f ∈ rest, f.2.length = m) : (foldConcatLo rest A).length = m := by
  induction rest generalizing A with
  | nil => exact hA
  | cons f r ih =>
    rw [foldConcatLo]
    refine ih _ ?_ (fun g hg => hrest g (List.mem_cons_of_mem _ hg))
    rw [hconcat_length, bcast_fst_length, hA,
      hrest f (List.mem_cons_self _ _), min_self]

theorem foldConcatHi_length (rest : List (List ℚ × List ℚ))
    (A : List (List ℚ)) (m : ℕ) (hA : A.length = m)
    (hrest : ∀ f ∈ rest, f.2.length = m) : (foldConcatHi rest A).length = m := by
  induction rest generalizing A with
  | nil => exact hA
  | cons f r ih =>
    rw [foldConcatHi]
    refine ih _ ?_ (fun g hg => hrest g (List.mem_cons_of_mem _ hg))
    rw [hconcat_length, bcast_snd_length, hA,
      hrest f (List.mem_cons_self _ _), min_self]

theorem foldConcatLo_getD (rest : List (List ℚ × List ℚ))
    (A : List (List ℚ)) (m i : ℕ) (hA : A.length = m)
    (hrest : ∀ f ∈ rest, f.2.length = m) (hi : i < m) :
    (foldConcatLo rest A).getD i [] = A.getD i [] ++ cvplusCandLo rest i := by
  induction rest generalizing A with
  | nil => simp [foldConcatLo, cvplusCandLo]
  | cons f r ih =>
    have hf : f.2.length = m := hrest f (List.mem_cons_self _ _)
    have hAB : (hconcat A (CONSTANT_INTERVAL_bcast f.2 f.1).1).length = m := by
      rw [hconcat_length, bcast_fst_length, hA, hf, min_self]
    rw [foldConcatLo, ih _ hAB (fun g hg => hrest g (List.mem_cons_of_mem _ hg)),
      hconcat]
    rw [getD_zipWith_of_lt _ A _ i (by omega) (by rw [bcast_fst_length]; omega)
      [] [] []]
    rw [show (CONSTANT_INTERVAL_bcast f.2 f.1).1 =
        f.2.map (fun p => f.1.map (fun r => p - r)) from rfl]
    rw [getD_map_of_lt _ f.2 i (by omega) [] 0]
    rw [cvplusCandLo, List.append_assoc]

theorem foldConcatHi_getD (rest : List (List ℚ × List ℚ))
    (A : List (List ℚ)) (m i : ℕ) (hA : A.length = m)
    (hrest : ∀ f ∈ rest, f.2.length = m) (hi : i < m) :
    (foldConcatHi rest A).getD i [] = A.getD i [] ++ cvplusCandHi rest i := by
  induction rest generalizing A with
  | nil => simp [foldConcatHi, cvplusCandHi]
  | cons f r ih =>
    have hf : f.2.length = m := hrest f (List.mem_cons_self _ _)
    have hAB : (hconcat A (CONSTANT_INTERVAL_bcast f.2 f.1).2).length = m := by
      rw [hconcat_length, bcast_snd_length, hA, hf, min_self]
    rw [foldConcatHi, ih _ hAB (fun g hg => hrest g (List.mem_cons_of_mem _ hg)),
      hconcat]
    rw [getD_zipWith_of_lt _ A _ i (by omega) (by rw [bcast_snd_length]; omega)
      [] [] []]
    rw [show (CONSTANT_INTERVAL_bcast f.2 f.1).2 =
        f.2.map (fun p => f.1.map (fun r => p + r)) from rfl]
    rw [getD_map_of_lt _ f.2 i (by omega) [] 0]
    rw [cvplusCandHi, List.append_assoc]

/-- C1 (amended): with a nonempty fold mapping of fitted calibrators and
every fold predictor returning `m` predictions, `CvPlusCalibrator.calibrate`
concatenates the per-fold `CONSTANT_INTERVAL` candidate-bound matrices
column-wise and returns per test example the re-negated `1 - alpha`
inverted-CDF quantile of the negated pooled lower-bound candidates and
the plain `1 - alpha` inverted-CDF quantile of the pooled upper-bound
candidates; in the two-fold scenario with residuals `[1, 2]`, `[3, 4]`,
predictions `10` and `alpha = 1/2` this yields `(8, 12)` — the lower
bound is not the plain `0.5`-quantile of the pooled lower set. -/
theorem cvplus_calibrate_spec (f0 : List ℚ × List ℚ)
    (rest : List (List ℚ × List ℚ)) (alpha : ℚ) (m : ℕ)
    (hm : ∀ f ∈ f0 :: rest, f.2.length = m) :
    CvPlusCalibrator_calibrate (toFoldIn (f0 :: rest)) alpha =
      Except.ok
        ((List.range m).map (fun i =>
          -invertedCdfQuantile ((cvplusCandLo (f0 :: rest) i).map
            (fun x => -x)) (1 - alpha)),
         (List.range m).map (fun i =>
          invertedCdfQuantile (cvplusCandHi (f0 :: rest) i) (1 - alpha))) := by
  have hf0 : f0.2.length = m := hm f0 (List.mem_cons_self _ _)
  have hrest : ∀ f ∈ rest, f.2.length = m :=
    fun f hf => hm f (List.mem_cons_of_mem _ hf)
  have hb1 : (CONSTANT_INTERVAL_bcast f0.2 f0.1).1.length = m := by
    rw [bcast_fst_length, hf0]
  have hb2 : (CONSTANT_INTERVAL_bcast f0.2 f0.1).2.length = m := by
    rw [bcast_snd_length, hf0]
  have hloop : cvplusLoop (toFoldIn (f0 :: rest)) none none =
      Except.ok (foldConcatLo rest (CONSTANT_INTERVAL_bcast f0.2 f0.1).1,
        foldConcatHi rest (CONSTANT_INTERVAL_bcast f0.2 f0.1).2) := by
    rw [show cvplusLoop (toFoldIn (f0 :: rest)) none none =
        cvplusLoop (toFoldIn rest)
          (some (CONSTANT_INTERVAL_bcast f0.2 f0.1).1)
          (some (CONSTANT_INTERVAL_bcast f0.2 f0.1).2) from rfl,
      cvplusLoop_toFoldIn]
  simp only [CvPlusCalibrator_calibrate, hloop]
  refine congrArg Except.ok (Prod.ext ?_ ?_)
  · refine List.ext_getElem ?_ (fun n h1 h2 => ?_)
    · rw [List.length_map, foldConcatLo_length rest _ m hb1 hrest,
        List.length_map, List.length_range]
    · have hn : n < m := by
        rw [List.length_map, foldConcatLo_length rest _ m hb1 hrest] at h1
        exact h1
      rw [List.getElem_map, List.getElem_map, List.getElem_range]
      have hlt : n < (foldConcatLo rest (CONSTANT_INTERVAL_bcast f0.2 f0.1).1).length := by
        rw [foldConcatLo_length rest _ m hb1 hrest]; exact hn
      have hrow : (foldConcatLo rest (CONSTANT_INTERVAL_bcast f0.2 f0.1).1)[n] =
          cvplusCandLo (f0 :: rest) n := by
        rw [← List.getD_eq_getElem _ [] hlt]
        rw [foldConcatLo_getD rest _ m n hb1 hrest hn]
        rw [show (CONSTANT_INTERVAL_bcast f0.2 f0.1).1 =
            f0.2.map (fun p => f0.1.map (fun r => p - r)) from rfl]
        rw [getD_map_of_lt _ f0.2 n (by omega) [] 0]
        rw [cvplusCandLo]
      rw [hrow]
  · refine List.ext_getElem ?_ (fun n h1 h2 => ?_)
    · rw [List.length_map, foldConcatHi_length rest _ m hb2 hrest,
        List.length_map, List.length_range]
    · have hn : n < m := by
        rw [List.length_map, foldConcatHi_length rest _ m hb2 hrest] at h1
        exact h1
      rw [List.getElem_map, List.getElem_map, List.getElem_range]
      have hlt : n < (foldConcatHi rest (CONSTANT_INTERVAL_bcast f0.2 f0.1).2).length := by
        rw [foldConcatHi_length rest _ m hb2 hrest]; exact hn
      have hrow : (foldConcatHi rest (CONSTANT_INTERVAL_bcast f0.2 f0.1).2)[n] =
          cvplusCandHi (f0 :: rest) n := by
        rw [← List.getD_eq_getElem _ [] hlt]
        rw [foldConcatHi_getD rest _ m n hb2 hrest hn]
        rw [show (CONSTANT_INTERVAL_bcast f0.2 f0.1).2 =
            f0.2.map (fun p => f0.1.map (fun r => p + r)) from rfl]
        rw [getD_map_of_lt _ f0.2 n (by omega) [] 0]
        rw [cvplusCandHi]
      rw [hrow]

/-- C1 counterexample: in the two-fold scenario with fold residuals
`[1, 2]` and `[3, 4]`, both fold predictions `10` for one test point and
`alpha = 1/2`, the code returns `(8, 12)`, while the plain
`0.5`-quantile (inverted-CDF) of the pooled lower-bound candidates
`{9, 8, 7, 6}` is `7 ≠ 8`: the lower bound is not the quantile of the
pooled set, but its re-negated quantile of the negated set. -/
theorem cvplus_scenario_counterexample :
    CvPlusCalibrator_calibrate
        [⟨[1, 2], some [10]⟩, ⟨[3, 4], some [10]⟩] (1/2) =
      Except.ok ([8], [12]) ∧
    invertedCdfQuantile [9, 8, 7, 6] (1/2) = 7 ∧
    invertedCdfQuantile [11, 12, 13, 14] (1/2) = 12 ∧
    ((8 : ℚ) ≠ 7) := by
  have hloop : cvplusLoop [⟨[1, 2], some [10]⟩, ⟨[3, 4], some [10]⟩] none none =
      Except.ok ([[9, 8, 7, 6]], [[11, 12, 13, 14]]) := by
    norm_num [cvplusLoop, CONSTANT_INTERVAL_bcast, hconcat]
  have hlo : invertedCdfQuantile [-9, -8, -7, -6] (1/2) = -8 := by
    norm_num [invertedCdfQuantile, ceilQ, List.insertionSort,
      List.orderedInsert, ascR]
    decide
  have hhi : invertedCdfQuantile [11, 12, 13, 14] (1/2) = 12 := by
    norm_num [invertedCdfQuantile, ceilQ, List.insertionSort,
      List.orderedInsert, ascR]
    decide
  refine ⟨?_, ?_, ?_, by norm_num⟩
  · simp only [CvPlusCalibrator_calibrate, hloop, List.map_cons, List.map_nil]
    norm_num [hlo, hhi]
  · norm_num [invertedCdfQuantile, ceilQ, List.insertionSort,
      List.orderedInsert, ascR]
    decide
  · norm_num [invertedCdfQuantile, ceilQ, List.insertionSort,
      List.orderedInsert, ascR]
    decide

/-- C1 witness: the amended statement applied to the two-fold scenario
(residuals `[1, 2]` and `[3, 4]`, both predictions `[10]`,
`alpha = 1/2`, one test point). -/
theorem cvplus_calibrate_spec_witness :
    CvPlusCalibrator_calibrate
        (toFoldIn [([1, 2], [10]), ([3, 4], [10])]) (1/2) =
      Except.ok
        ((List.range 1).map (fun i =>
          -invertedCdfQuantile
            ((cvplusCandLo [([1, 2], [10]), ([3, 4], [10])] i).map
              (fun x => -x)) (1 - 1/2)),
         (List.range 1).map (fun i =>
          invertedCdfQuantile
            (cvplusCandHi [([1, 2], [10]), ([3, 4], [10])] i) (1 - 1/2))) :=
  cvplus_calibrate_spec ([1, 2], [10]) [([3, 4], [10])] (1/2) 1 (by decide)

end Puncc
